import Mathlib

set_option maxRecDepth 40000

/-!
Verification of the CREATE2 address finder (Rust crate `create2crunch`,
sources `src/lib.rs` and `src/main.rs`).

Shallow embedding conventions:
* Rust strings are modelled as `List Char`; the strings handled by the
  program (hex strings, `0x` markers) are ASCII, so character-level and
  byte-level reasoning coincide.
* Bytes are natural numbers; byte vectors are `List Nat` whose elements
  are below 256.
* `keccak256` (the `tiny_keccak` primitive) is implemented concretely for
  the claims about checksum test vectors, and passed as an abstract
  function parameter where the spec treats it as a trusted primitive.
* Rust panics (`unwrap` failures) are modelled by a dedicated `crash`
  result constructor; `Result::Err` by `err`.
-/

namespace Create2

/-! ## Hex codec (the `hex` crate and `u8::from_str_radix` as used here) -/

/-- Lowercase hex digit character for a value below 16 (`0`-`9`, `a`-`f`). -/
def hexDigitChar (n : Nat) : Char :=
  if n < 10 then Char.ofNat (48 + n) else Char.ofNat (87 + n)

/-- `hex::encode`: two lowercase hex characters per byte. -/
def hexEncode : List Nat → List Char
  | [] => []
  | b :: rest => hexDigitChar (b / 16) :: hexDigitChar (b % 16) :: hexEncode rest

/-- `char::is_ascii_hexdigit`. -/
def isHexDigit (c : Char) : Bool :=
  ('0' ≤ c && c ≤ '9') || ('a' ≤ c && c ≤ 'f') || ('A' ≤ c && c ≤ 'F')

/-- Value of one hex digit character (either case); 0 on non-hex input.
Callers in the embedded program only apply it to hex digit characters
(`i64::from_str_radix(.., 16).unwrap()` on a single validated digit). -/
def hexVal (c : Char) : Nat :=
  if '0' ≤ c && c ≤ '9' then c.toNat - 48
  else if 'a' ≤ c && c ≤ 'f' then c.toNat - 87
  else if 'A' ≤ c && c ≤ 'F' then c.toNat - 55
  else 0

/-- `Vec::from_hex` from the `hex` crate: fails on an odd number of
characters or on any non-hex character, otherwise decodes pairs of hex
digits to bytes. -/
def fromHex : List Char → Option (List Nat)
  | [] => some []
  | [_] => none
  | a :: b :: rest =>
    if isHexDigit a && isHexDigit b then
      match fromHex rest with
      | some l => some ((16 * hexVal a + hexVal b) :: l)
      | none => none
    else none

/-- The target-prefix decoding in `cpu` (src/lib.rs lines 200-204):
`chunks(2)` over the hex digits, each chunk parsed with
`u8::from_str_radix(.., 16)`; a trailing single digit becomes its own
(small) byte.  Only reached on strings already validated to contain hex
digits, where `from_str_radix` cannot fail. -/
def decodeChunks : List Char → List Nat
  | [] => []
  | [a] => [hexVal a]
  | a :: b :: rest => (16 * hexVal a + hexVal b) :: decodeChunks rest

/-- `u64_to_fixed_6` (src/lib.rs lines 753-762): big-endian 6-byte
encoding via shifts and masks. -/
def u64ToFixed6 (x : Nat) : List Nat :=
  [(x >>> 40) &&& 255, (x >>> 32) &&& 255, (x >>> 24) &&& 255,
   (x >>> 16) &&& 255, (x >>> 8) &&& 255, x &&& 255]

/-- `to_fixed_20`: copy of the first 20 bytes (callers guarantee the
exact length; a shorter vector would be a Rust panic, never exercised). -/
def to_fixed_20 (bytes : List Nat) : List Nat := bytes.take 20

/-- `to_fixed_32`: copy of the first 32 bytes (same caller contract). -/
def to_fixed_32 (bytes : List Nat) : List Nat := bytes.take 32

/-- `to_fixed_47`: copy of the first 47 bytes (same caller contract). -/
def to_fixed_47 (bytes : List Nat) : List Nat := bytes.take 47

/-! ## Keccak-256 (the `tiny_keccak` primitive, original Keccak padding) -/

/-- 64-bit left rotation on a lane value below `2 ^ 64`. -/
def rotl64 (x n : Nat) : Nat := ((x <<< n) ||| (x >>> (64 - n))) % (2 ^ 64)

/-- 64-bit bitwise complement. -/
def bitNot64 (x : Nat) : Nat := x ^^^ (2 ^ 64 - 1)

/-- The 24 Keccak round constants (rounds 0-5, 6-11, 12-17, 18-23). -/
def keccakRC : List Nat :=
  [0x1, 0x8082, 0x800000000000808a, 0x8000000080008000, 0x808b, 0x80000001] ++
    [0x8000000080008081, 0x8000000000008009, 0x8a, 0x88, 0x80008009, 0x8000000a] ++
    [0x8000808b, 0x800000000000008b, 0x8000000000008089, 0x8000000000008003,
      0x8000000000008002, 0x8000000000000080] ++
    [0x800a, 0x800000008000000a, 0x8000000080008081, 0x8000000000008080,
      0x80000001, 0x8000000080008008]

/-- Rotation offsets, indexed by `x + 5 * y` (one sublist per `y`). -/
def rotOffsets : List Nat :=
  [0, 1, 62, 28, 27] ++ [36, 44, 6, 55, 20] ++ [3, 10, 43, 25, 39] ++
    [41, 45, 15, 21, 8] ++ [18, 2, 61, 56, 14]

/-- Lane `(x, y)` of a 25-lane state (stored at index `x + 5 * y`). -/
def lane (s : List Nat) (x y : Nat) : Nat := s.getD (x % 5 + 5 * (y % 5)) 0

/-- One Keccak-f[1600] round (theta, rho, pi, chi, iota). -/
def keccakRound (s : List Nat) (rc : Nat) : List Nat :=
  let C := fun x => lane s x 0 ^^^ lane s x 1 ^^^ lane s x 2 ^^^ lane s x 3 ^^^ lane s x 4
  let D := fun x => C ((x + 4) % 5) ^^^ rotl64 (C ((x + 1) % 5)) 1
  let thetaS := (List.range 25).map (fun i => s.getD i 0 ^^^ D (i % 5))
  let B := fun x y =>
    rotl64 (lane thetaS ((x + 3 * y) % 5) x)
      (rotOffsets.getD (((x + 3 * y) % 5) + 5 * (x % 5)) 0)
  (List.range 25).map (fun i =>
    let x := i % 5
    let y := i / 5
    let v := B x y ^^^ (bitNot64 (B ((x + 1) % 5) y) &&& B ((x + 2) % 5) y)
    if i = 0 then v ^^^ rc else v)

/-- The full Keccak-f[1600] permutation. -/
def keccakF (s : List Nat) : List Nat := keccakRC.foldl keccakRound s

/-- Little-endian recombination of (up to) 8 bytes into one lane. -/
def bytesToLane (bs : List Nat) : Nat := bs.foldr (fun b acc => b + 256 * acc) 0

/-- Little-endian decomposition of one lane into 8 bytes. -/
def laneToBytes (l : Nat) : List Nat :=
  (List.range 8).map (fun i => l / 2 ^ (8 * i) % 256)

/-- Original Keccak multi-rate padding for rate 136 bytes (domain bits
`0x01 .. 0x80`, collapsing to `0x81` when only one byte is free). -/
def keccakPad (msg : List Nat) : List Nat :=
  let padLen := 136 - msg.length % 136
  if padLen = 1 then msg ++ [0x81]
  else msg ++ (0x01 :: (List.replicate (padLen - 2) 0 ++ [0x80]))

/-- Split into 136-byte rate blocks (fuel-based structural recursion so
that the function reduces inside the kernel). -/
def splitBlocksAux : Nat → List Nat → List (List Nat)
  | _, [] => []
  | 0, _ :: _ => []
  | fuel + 1, b :: rest => (b :: rest).take 136 :: splitBlocksAux fuel ((b :: rest).drop 136)

/-- Split a (padded) message into its rate blocks. -/
def splitBlocks (l : List Nat) : List (List Nat) := splitBlocksAux l.length l

/-- Absorb one 136-byte block into the sponge state and permute. -/
def absorbBlock (s : List Nat) (block : List Nat) : List Nat :=
  keccakF ((List.range 25).map (fun i =>
    s.getD i 0 ^^^ (if i < 17 then bytesToLane ((block.drop (8 * i)).take 8) else 0)))

/-- Keccak-256 of a byte sequence (as computed by
`tiny_keccak::Keccak::new_keccak256`): pad, absorb all blocks, squeeze
the first 32 bytes. -/
def keccak256 (msg : List Nat) : List Nat :=
  let s := (splitBlocks (keccakPad msg)).foldl absorbBlock (List.replicate 25 0)
  laneToBytes (s.getD 0 0) ++ laneToBytes (s.getD 1 0) ++
    laneToBytes (s.getD 2 0) ++ laneToBytes (s.getD 3 0)

/-! ## The incremental hashing interface used by `cpu`

`tiny_keccak`'s streaming object is modelled by the list of bytes it has
absorbed so far; `clone` is ordinary value copying, and `finalize`
applies the (possibly abstract) one-shot hash function to the absorbed
bytes. -/

/-- State of a streaming hash object: the bytes absorbed so far. -/
structure KeccakState where
  absorbed : List Nat
deriving DecidableEq

/-- `Keccak::new_keccak256()`: a fresh hash object. -/
def Keccak.new_keccak256 : KeccakState := ⟨[]⟩

/-- `Keccak::update`: absorb further bytes. -/
def KeccakState.update (s : KeccakState) (bs : List Nat) : KeccakState :=
  ⟨s.absorbed ++ bs⟩

/-- `Keccak::finalize` with respect to a one-shot hash primitive `h`. -/
def KeccakState.finalize (s : KeccakState) (h : List Nat → List Nat) : List Nat :=
  h s.absorbed

/-! ## Config (argument validation, src/lib.rs lines 50-169) -/

/-- The validated search parameters (struct `Config`). -/
structure Config where
  factory_address : List Nat
  calling_address : List Nat
  init_code_hash : List Nat
  gpu_device : Nat
  target_start_string : List Char
deriving DecidableEq

/-- The distinct validation failures of `Config::new` (each corresponds
to one `return Err(..)` with a fixed message in the source). -/
inductive ConfigError where
  | missingFactory
  | missingCalling
  | missingInitCodeHash
  | missingTargetStart
  | targetMissingMarker
  | badFactoryHex
  | badCallingHex
  | badInitCodeHashHex
  | badFactoryLen
  | badCallingLen
  | badInitCodeHashLen
  | badGpuDevice
  | targetNotHex
deriving DecidableEq

/-- Outcome of `Config::new`: success, a validation `Err`, or a Rust
panic (`crash`). -/
inductive ConfigResult where
  | ok (c : Config)
  | err (e : ConfigError)
  | crash
deriving DecidableEq

/-- `without_prefix` (src/lib.rs lines 711-718): drop the first two
characters; the `unwrap` panics (`none`) when the string has fewer than
three characters.  (Callers only invoke it on strings starting with
`0x`, whose first two characters are single-byte, so character-dropping
matches the byte-index slicing of the source.) -/
def dropHexMarker (s : List Char) : Option (List Char) :=
  if 3 ≤ s.length then some (s.drop 2) else none

/-- The `starts_with("0x")`-guarded stripping step of `Config::new`
(src/lib.rs lines 90-100); `none` models the panic inside
`without_prefix`. -/
def strip0x (s : List Char) : Option (List Char) :=
  if List.isPrefixOf ['0', 'x'] s then dropHexMarker s else some s

/-- `str::parse::<u8>` restricted to the plain digit strings that occur
here (the default is the literal `"255"`): all-digit, non-empty, value
below 256. -/
def parseU8 (s : List Char) : Option Nat :=
  if s ≠ [] && s.all (fun c => '0' ≤ c && c ≤ '9') then
    let v := s.foldl (fun acc c => 10 * acc + (c.toNat - 48)) 0
    if v < 256 then some v else none
  else none

/-- Body of `Config::new` after the five arguments have been fetched:
strip `0x` markers, check the target marker, hex-decode, check lengths,
parse the GPU device, check the target digits, build the `Config`. -/
def configBody (f c i t gpu : List Char) : ConfigResult :=
  match strip0x f with
  | none => .crash
  | some fs =>
    match strip0x c with
    | none => .crash
    | some cs =>
      match strip0x i with
      | none => .crash
      | some ihs =>
        if !(List.isPrefixOf ['0', 'x'] t) then .err .targetMissingMarker
        else
          match fromHex fs with
          | none => .err .badFactoryHex
          | some factory_address_vec =>
            match fromHex cs with
            | none => .err .badCallingHex
            | some calling_address_vec =>
              match fromHex ihs with
              | none => .err .badInitCodeHashHex
              | some init_code_hash_vec =>
                if factory_address_vec.length ≠ 20 then .err .badFactoryLen
                else if calling_address_vec.length ≠ 20 then .err .badCallingLen
                else if init_code_hash_vec.length ≠ 32 then .err .badInitCodeHashLen
                else
                  match parseU8 gpu with
                  | none => .err .badGpuDevice
                  | some gpu_device =>
                    if (t.drop 2).any (fun ch => !(isHexDigit ch)) then .err .targetNotHex
                    else .ok ⟨to_fixed_20 factory_address_vec, to_fixed_20 calling_address_vec,
                              to_fixed_32 init_code_hash_vec, gpu_device, t⟩

/-- `Config::new` (src/lib.rs lines 60-168) applied to the full argument
vector; the first element is the program name, which `args.next()`
discards.  A missing fifth argument defaults to the literal `"255"`. -/
def Config.new (argv : List (List Char)) : ConfigResult :=
  match argv with
  | [] => .err .missingFactory
  | [_] => .err .missingFactory
  | [_, _] => .err .missingCalling
  | [_, _, _] => .err .missingInitCodeHash
  | [_, _, _, _] => .err .missingTargetStart
  | [_, f, c, i, t] => configBody f c i t ['2', '5', '5']
  | _ :: f :: c :: i :: t :: g :: _ => configBody f c i t g

/-! ## The CPU search loop (src/lib.rs lines 185-329) -/

/-- `CONTROL_CHARACTER`. -/
def CONTROL_CHARACTER : Nat := 0xff

/-- `MAX_INCREMENTER = 0xffffffffffff`. -/
def MAX_INCREMENTER : Nat := 0xffffffffffff

/-- The nonces actually enumerated by one outer iteration:
`(0..MAX_INCREMENTER)` is a half-open Rust range. -/
def nonceCandidates : List Nat := List.range MAX_INCREMENTER

/-- `header_vec`: `0xff ++ factory ++ caller ++ salt_random_segment`. -/
def headerVec (factory calling random : List Nat) : List Nat :=
  CONTROL_CHARACTER :: (factory ++ calling ++ random)

/-- `hash_header`: the partially-absorbed hash object shared (by
cloning) with all workers of one outer iteration. -/
def hashHeader (cfg : Config) (random : List Nat) : KeccakState :=
  Keccak.new_keccak256.update
    (to_fixed_47 (headerVec cfg.factory_address cfg.calling_address random))

/-- The per-candidate digest: clone `hash_header`, absorb the 6-byte
nonce and the 32-byte footer, finalize with primitive `h`. -/
def candidateDigest (h : List Nat → List Nat) (cfg : Config) (random : List Nat)
    (n : Nat) : List Nat :=
  (((hashHeader cfg random).update (u64ToFixed6 n)).update cfg.init_code_hash).finalize h

/-- The derived address: `res[12..32]`, the trailing 20 bytes of the
32-byte digest. -/
def cpuDerivedAddress (h : List Nat → List Nat) (cfg : Config) (random : List Nat)
    (n : Nat) : List Nat :=
  ((candidateDigest h cfg random n).drop 12).take 20

/-- The checksum loop of `cpu` (src/lib.rs lines 270-302), parametrized
by the hash primitive `h`: hash the UTF-8 bytes of the (lowercase hex)
address string, hex-encode the digest, and uppercase exactly the
characters whose digest hex character parses to a value above 7.
(`char::to_uppercase` coincides with `Char.toUpper` on ASCII.) -/
def checksumBodyK (h : List Nat → List Nat) (address : List Char) : List Char :=
  let address_hash := hexEncode (h (address.map Char.toNat))
  (List.range address.length).map (fun i =>
    if 7 < hexVal (address_hash.getD i '0') then Char.toUpper (address.getD i ' ')
    else address.getD i ' ')

/-- The checksum encoding with the real Keccak-256 primitive (what the
binary computes). -/
def checksumBody (address : List Char) : List Char := checksumBodyK keccak256 address

/-- Stage 1 of the match test: the decoded target bytes are a prefix of
the derived address bytes (`last_20_bytes.starts_with(target_start)`). -/
def stage1Pass (h : List Nat → List Nat) (cfg : Config) (random : List Nat)
    (n : Nat) : Bool :=
  List.isPrefixOf (decodeChunks (cfg.target_start_string.drop 2))
    (cpuDerivedAddress h cfg random n)

/-- The checksummed address string `0x...` built for a candidate. -/
def checksumAddressOf (h : List Nat → List Nat) (cfg : Config) (random : List Nat)
    (n : Nat) : List Char :=
  '0' :: 'x' :: checksumBodyK h (hexEncode (cpuDerivedAddress h cfg random n))

/-- Stage 2 of the match test: the literal target string (with its `0x`
marker, case-sensitively) is a prefix of the checksummed address
(`checksum_address.starts_with(&config.target_start_string)`). -/
def stage2Pass (h : List Nat → List Nat) (cfg : Config) (random : List Nat)
    (n : Nat) : Bool :=
  List.isPrefixOf cfg.target_start_string (checksumAddressOf h cfg random n)

/-- One candidate evaluation of the search loop (src/lib.rs lines
238-327).  Returns the line that is printed to standard output and
appended to `efficient_addresses.txt` when the candidate is confirmed,
and `none` when no record is produced. -/
def evalCandidate (h : List Nat → List Nat) (cfg : Config) (random : List Nat)
    (n : Nat) : Option (List Char) :=
  let res := candidateDigest h cfg random n
  let last_20_bytes := (res.drop 12).take 20
  if List.isPrefixOf (decodeChunks (cfg.target_start_string.drop 2)) last_20_bytes then
    let address := hexEncode last_20_bytes
    let full_salt := '0' :: 'x' ::
      (((hexEncode (headerVec cfg.factory_address cfg.calling_address random)).drop 42) ++
        hexEncode (u64ToFixed6 n))
    let checksum_address := '0' :: 'x' :: checksumBodyK h address
    if List.isPrefixOf cfg.target_start_string checksum_address then
      some (full_salt ++ (' ' :: '=' :: '>' :: ' ' :: checksum_address))
    else none
  else none

/-! ## Spec-side notions used to state the claims -/

/-- Big-endian recombination of a byte sequence (first byte most
significant): the spec-side meaning of "encoded big-endian". -/
def beDecode (bs : List Nat) : Nat := bs.foldl (fun acc b => 256 * acc + b) 0

/-- The `j`-th nibble of a digest, high nibble of each byte first: the
spec-side wording "the corresponding nibble of the digest". -/
def nibbleAt (digest : List Nat) (j : Nat) : Nat :=
  if j % 2 = 0 then digest.getD (j / 2) 0 / 16 else digest.getD (j / 2) 0 % 16

/-- The sixteen lowercase hex characters. -/
def lowerHexChars : List Char := (List.range 16).map hexDigitChar

/-- Spec-side (total) `0x`-marker stripping, for phrasing what an
argument "decodes to". -/
def stripMarker (s : List Char) : List Char :=
  if List.isPrefixOf ['0', 'x'] s then s.drop 2 else s

/-- "The argument decodes to exactly `k` bytes" (after optional marker
stripping, under the `hex` crate's decoder). -/
def decodesTo (k : Nat) (s : List Char) : Bool :=
  match fromHex (stripMarker s) with
  | some l => l.length == k
  | none => false

/-- A well-formed target prefix argument: `0x` marker plus hex digits. -/
def goodTarget (t : List Char) : Bool :=
  List.isPrefixOf ['0', 'x'] t && (t.drop 2).all isHexDigit

/-- Whether a `Config::new` outcome is a validation error. -/
def isErr (r : ConfigResult) : Bool :=
  match r with
  | .err _ => true
  | _ => false

end Create2

namespace Create2

/-- Spec-side: the 85-byte CREATE2 hash input
`0xff || factory || caller || random || nonce || init_code_hash`. -/
def create2Message (factory calling random nonceBytes initCodeHash : List Nat) : List Nat :=
  CONTROL_CHARACTER :: (factory ++ calling ++ random ++ nonceBytes ++ initCodeHash)

/-! ## Concrete instances used by witnesses -/

/-- A trivial stand-in for the abstract hash primitive: always returns
the 32 bytes `0, 1, ..., 31`. -/
def hashW : List Nat → List Nat := fun _ => List.range 32

/-- A concrete valid `Config` whose target prefix is the bare marker
`0x`. -/
def cfgMarkerOnly : Config :=
  ⟨List.replicate 20 0, List.replicate 20 1, List.replicate 32 2, 255, ['0', 'x']⟩

/-- A concrete 6-byte random segment. -/
def randomW : List Nat := List.replicate 6 3

/-! ## Helper lemmas -/

theorem land255 (x : Nat) : x &&& 255 = x % 256 := by
  have h := Nat.and_pow_two_sub_one_eq_mod x 8
  norm_num at h
  exact h

theorem u64ToFixed6_length (n : Nat) : (u64ToFixed6 n).length = 6 := rfl

theorem u64ToFixed6_lt (n : Nat) : ∀ b ∈ u64ToFixed6 n, b < 256 := by
  intro b hb
  simp [u64ToFixed6] at hb
  rcases hb with rfl | rfl | rfl | rfl | rfl | rfl <;>
    (rw [land255]; exact Nat.mod_lt _ (by norm_num))

theorem beDecode_u64ToFixed6 (n : Nat) (h : n < 2 ^ 48) : beDecode (u64ToFixed6 n) = n := by
  have h48 : n < 281474976710656 := by norm_num at h; exact h
  simp only [beDecode, u64ToFixed6, land255, Nat.shiftRight_eq_div_pow, List.foldl]
  norm_num
  omega

theorem hexEncode_append (a b : List Nat) :
    hexEncode (a ++ b) = hexEncode a ++ hexEncode b := by
  induction a with
  | nil => rfl
  | cons x rest ih => simp [hexEncode, ih]

theorem length_hexEncode (bs : List Nat) : (hexEncode bs).length = 2 * bs.length := by
  induction bs with
  | nil => rfl
  | cons x rest ih => simp [hexEncode, ih]; omega

theorem hexDigitChar_isHex : ∀ v, v < 16 → isHexDigit (hexDigitChar v) = true := by decide

theorem hexDigitChar_upper_isHex : ∀ v, v < 16 →
    isHexDigit (Char.toUpper (hexDigitChar v)) = true := by decide

theorem hexVal_hexDigitChar : ∀ v, v < 16 → hexVal (hexDigitChar v) = v := by decide

theorem hexEncode_mem_shape (bs : List Nat) (hlt : ∀ b ∈ bs, b < 256) :
    ∀ ch ∈ hexEncode bs, ∃ v, v < 16 ∧ ch = hexDigitChar v := by
  induction bs with
  | nil => intro ch hch; simp [hexEncode] at hch
  | cons b rest ih =>
    intro ch hch
    simp only [hexEncode, List.mem_cons] at hch
    rcases hch with rfl | rfl | hch
    · exact ⟨b / 16, by have := hlt b (by simp); omega, rfl⟩
    · exact ⟨b % 16, Nat.mod_lt _ (by norm_num), rfl⟩
    · exact ih (fun x hx => hlt x (by simp [hx])) ch hch

theorem length_laneToBytes (l : Nat) : (laneToBytes l).length = 8 := by
  simp [laneToBytes]

theorem keccak256_length (msg : List Nat) : (keccak256 msg).length = 32 := by
  simp [keccak256, laneToBytes]

theorem keccak256_lt (msg : List Nat) : ∀ b ∈ keccak256 msg, b < 256 := by
  intro b hb
  simp only [keccak256, laneToBytes, List.mem_append, List.mem_map, List.mem_range] at hb
  rcases hb with ((⟨i, _, rfl⟩ | ⟨i, _, rfl⟩) | ⟨i, _, rfl⟩) | ⟨i, _, rfl⟩ <;>
    exact Nat.mod_lt _ (by norm_num)

end Create2

namespace Create2

theorem getD_map_range {α : Type} (f : Nat → α) (n j : Nat) (d : α) (h : j < n) :
    ((List.range n).map f).getD j d = f j := by
  simp [List.getD, List.get?_map, List.get?_range, h]

theorem getD_eq_get {α : Type} (l : List α) (j : Nat) (d : α) (h : j < l.length) :
    l.getD j d = l.get ⟨j, h⟩ := by
  simp [List.getD, List.get?_eq_get, h]

theorem getD_eq_default {α : Type} (l : List α) (j : Nat) (d : α) (h : l.length ≤ j) :
    l.getD j d = d := by
  simp [List.getD, List.getElem?_eq_none h]

theorem nibbleAt_lt (bs : List Nat) (h : ∀ b ∈ bs, b < 256) (j : Nat) :
    nibbleAt bs j < 16 := by
  have hb : bs.getD (j / 2) 0 < 256 := by
    by_cases hj : j / 2 < bs.length
    · rw [getD_eq_get bs _ 0 hj]
      exact h _ (List.get_mem bs _ _)
    · rw [getD_eq_default bs _ 0 (by omega)]
      norm_num
  unfold nibbleAt
  split <;> omega

theorem hexEncode_getD (bs : List Nat) : ∀ j, j < 2 * bs.length →
    (hexEncode bs).getD j '0' = hexDigitChar (nibbleAt bs j) := by
  induction bs with
  | nil => intro j h; simp at h
  | cons b rest ih =>
    intro j hj
    match j with
    | 0 => simp [hexEncode, nibbleAt]
    | 1 => simp [hexEncode, nibbleAt]
    | k + 2 =>
      have hk : k < 2 * rest.length := by
        simp only [List.length_cons] at hj; omega
      have h2 : (k + 2) % 2 = k % 2 := by omega
      have h3 : (k + 2) / 2 = k / 2 + 1 := by omega
      have hrec := ih k hk
      simp only [hexEncode, List.getD_cons_succ, nibbleAt, h2, h3] at hrec ⊢
      exact hrec

theorem lowerHex_toLower : ∀ c ∈ lowerHexChars,
    Char.toLower (Char.toUpper c) = c ∧ Char.toLower c = c := by decide

theorem toLower_checksumBodyK (h : List Nat → List Nat) (s : List Char)
    (hs : ∀ c ∈ s, c ∈ lowerHexChars) :
    (checksumBodyK h s).map Char.toLower = s := by
  apply List.ext_get
  · simp [checksumBodyK]
  · intro j h1 h2
    simp only [checksumBodyK, List.get_map, List.get_range]
    have hj : j < s.length := h2
    have hgd : s.getD j ' ' = s.get ⟨j, hj⟩ := getD_eq_get s j ' ' hj
    have hmem := List.get_mem s j hj
    have hlow := lowerHex_toLower _ (hs _ hmem)
    rw [hgd]
    split
    · exact hlow.1
    · exact hlow.2

end Create2

namespace Create2

/-! ## Claims -/

/-- C5 counterexample: the claim says every integer in `[0, 2^48)` is
evaluated as a candidate nonce, but `(0..MAX_INCREMENTER)` is a
half-open Rust range, so the in-range value `2^48 - 1` is never
enumerated. -/
theorem claim_C5_counterexample : ¬ ((2 ^ 48 - 1) ∈ nonceCandidates) := by
  simp only [nonceCandidates, List.mem_range, MAX_INCREMENTER]
  norm_num

/-- C5 (amended): within one outer iteration the nonce enumerator
produces exactly the integer range `[0, 2^48 - 1)` — the maximal
6-byte value `2^48 - 1` itself is excluded — and each candidate is
encoded big-endian into a 6-byte array (decoding those bytes
big-endian recovers the nonce). -/
theorem claim_C5_nonce_range :
    ∀ n : Nat, (n ∈ nonceCandidates ↔ n < 2 ^ 48 - 1) ∧
      (n < 2 ^ 48 → (u64ToFixed6 n).length = 6 ∧ beDecode (u64ToFixed6 n) = n) := by
  intro n
  constructor
  · simp only [nonceCandidates, List.mem_range, MAX_INCREMENTER]
    norm_num
  · intro h
    exact ⟨u64ToFixed6_length n, beDecode_u64ToFixed6 n h⟩

/-- C5 witness: instantiation of the amended claim at the nonce 12345. -/
theorem claim_C5_witness :
    (12345 ∈ nonceCandidates ↔ 12345 < 2 ^ 48 - 1) ∧
      ((u64ToFixed6 12345).length = 6 ∧ beDecode (u64ToFixed6 12345) = 12345) :=
  ⟨(claim_C5_nonce_range 12345).1, (claim_C5_nonce_range 12345).2 (by norm_num)⟩

/-- C6: the claim (and the spec) wants an odd hex-digit count in the
target prefix rejected by `Config::new`, but the code only checks the
`0x` marker and that every later character is a hex digit — the
odd-length target `0x0f0` is accepted.  (The spec itself flags this as
a defect to fix, so the code, not the claim, is wrong.) -/
theorem claim_C6_odd_target_accepted :
    Config.new ["prog".toList, '0' :: 'x' :: List.replicate 40 '0',
        '0' :: 'x' :: List.replicate 40 '0', '0' :: 'x' :: List.replicate 64 '0',
        "0x0f0".toList] =
      ConfigResult.ok ⟨List.replicate 20 0, List.replicate 20 0, List.replicate 32 0,
        255, "0x0f0".toList⟩ := by decide

/-- Any `configBody` call in which one of the three byte-vector
arguments is the bare marker string crashes inside `without_prefix`. -/
theorem configBody_crash (f c i t gpu : List Char)
    (h : f = ['0', 'x'] ∨ c = ['0', 'x'] ∨ i = ['0', 'x']) :
    configBody f c i t gpu = ConfigResult.crash := by
  have hstrip : strip0x ['0', 'x'] = none := rfl
  rcases h with h | h | h
  · subst h
    simp [configBody, hstrip]
  · subst h
    cases hf : strip0x f with
    | none => simp [configBody, hf]
    | some fs => simp [configBody, hf, hstrip]
  · subst h
    cases hf : strip0x f with
    | none => simp [configBody, hf]
    | some fs =>
      cases hc : strip0x c with
      | none => simp [configBody, hf, hc]
      | some cs => simp [configBody, hf, hc, hstrip]

/-- C9: when the factory, caller, or init-code-hash argument is exactly
the two-character string `0x`, `Config::new` panics (the `unwrap`
inside `without_prefix` fails) instead of returning a validation
error. -/
theorem claim_C9_marker_only_arg_panics :
    ∀ (p f c i t : List Char) (rest : List (List Char)),
      (f = ['0', 'x'] ∨ c = ['0', 'x'] ∨ i = ['0', 'x']) →
      Config.new (p :: f :: c :: i :: t :: rest) = ConfigResult.crash := by
  intro p f c i t rest h
  cases rest with
  | nil =>
    rw [show Config.new [p, f, c, i, t] = configBody f c i t ['2', '5', '5'] from rfl]
    exact configBody_crash f c i t _ h
  | cons g gs =>
    rw [show Config.new (p :: f :: c :: i :: t :: g :: gs) = configBody f c i t g from rfl]
    exact configBody_crash f c i t _ h

/-- C9 witness: a concrete argument vector whose factory argument is
exactly `0x` makes `Config::new` panic. -/
theorem claim_C9_witness :
    Config.new ["prog".toList, ['0', 'x'], '0' :: 'x' :: List.replicate 40 '0',
        '0' :: 'x' :: List.replicate 64 '0', "0xab".toList, []] = ConfigResult.crash :=
  claim_C9_marker_only_arg_panics _ _ _ _ _ _ (Or.inl rfl)

/-- C10: the bare-marker target prefix `0x` is accepted by
`Config::new`, and under it stage 1 tests against the empty byte
sequence and stage 2 against the string `0x`, so every evaluated
candidate produces a match record. -/
theorem claim_C10_marker_only_target :
    (Config.new ["prog".toList, '0' :: 'x' :: List.replicate 40 '0',
        '0' :: 'x' :: List.replicate 40 '0', '0' :: 'x' :: List.replicate 64 '0',
        ['0', 'x']] =
      ConfigResult.ok ⟨List.replicate 20 0, List.replicate 20 0, List.replicate 32 0,
        255, ['0', 'x']⟩) ∧
    ∀ (h : List Nat → List Nat) (cfg : Config) (random : List Nat) (n : Nat),
      cfg.target_start_string = ['0', 'x'] →
      (evalCandidate h cfg random n).isSome = true := by
  constructor
  · decide
  · intro h cfg random n ht
    simp [evalCandidate, ht, decodeChunks, List.isPrefixOf]

/-- C10 witness: with a concrete hash stand-in, config, random segment
and nonce, a record is produced. -/
theorem claim_C10_witness :
    (evalCandidate hashW cfgMarkerOnly randomW 0).isSome = true :=
  claim_C10_marker_only_target.2 hashW cfgMarkerOnly randomW 0 rfl

/-- C2: a match record (the line echoed to standard output and written
to the store) is produced for a candidate exactly when both the
raw-byte prefix test (stage 1) and the case-sensitive checksummed
string-prefix test (stage 2) succeed. -/
theorem claim_C2_record_iff_both_stages :
    ∀ (h : List Nat → List Nat) (cfg : Config) (random : List Nat) (n : Nat),
      (evalCandidate h cfg random n).isSome = true ↔
        (stage1Pass h cfg random n = true ∧ stage2Pass h cfg random n = true) := by
  intro h cfg random n
  unfold evalCandidate stage1Pass stage2Pass checksumAddressOf cpuDerivedAddress
  by_cases h1 : List.isPrefixOf (decodeChunks (cfg.target_start_string.drop 2))
      (((candidateDigest h cfg random n).drop 12).take 20)
  · by_cases h2 : List.isPrefixOf cfg.target_start_string
        ('0' :: 'x' :: checksumBodyK h (hexEncode (((candidateDigest h cfg random n).drop 12).take 20)))
    · simp [h1, h2]
    · simp [h1, h2]
  · simp [h1]

end Create2

namespace Create2

/-- C1: for every well-sized factory/caller/init-code-hash/random
segment and in-range nonce, the derived address computed by the search
loop equals the trailing 20 bytes of the hash of the 85-byte message
`0xff || factory(20) || caller(20) || random(6) || nonce(6) ||
init_code_hash(32)`, the hash being an abstract 32-byte primitive. -/
theorem claim_C1_derived_address :
    ∀ (h : List Nat → List Nat) (cfg : Config) (random : List Nat) (n : Nat),
      (∀ m : List Nat, (h m).length = 32) →
      cfg.factory_address.length = 20 → cfg.calling_address.length = 20 →
      cfg.init_code_hash.length = 32 → random.length = 6 → n < 2 ^ 48 →
      (create2Message cfg.factory_address cfg.calling_address random (u64ToFixed6 n)
          cfg.init_code_hash).length = 85 ∧
      cpuDerivedAddress h cfg random n =
        (h (create2Message cfg.factory_address cfg.calling_address random (u64ToFixed6 n)
            cfg.init_code_hash)).drop
          ((h (create2Message cfg.factory_address cfg.calling_address random (u64ToFixed6 n)
            cfg.init_code_hash)).length - 20) := by
  intro h cfg random n hk hf hc hi hr hn
  have hlen : (create2Message cfg.factory_address cfg.calling_address random (u64ToFixed6 n)
      cfg.init_code_hash).length = 85 := by
    simp [create2Message, u64ToFixed6, hf, hc, hi, hr]
  refine ⟨hlen, ?_⟩
  have habs : to_fixed_47 (headerVec cfg.factory_address cfg.calling_address random) =
      headerVec cfg.factory_address cfg.calling_address random := by
    unfold to_fixed_47
    apply List.take_of_length_le
    simp [headerVec, hf, hc, hr]
  have hcand : candidateDigest h cfg random n =
      h (create2Message cfg.factory_address cfg.calling_address random (u64ToFixed6 n)
        cfg.init_code_hash) := by
    unfold candidateDigest hashHeader KeccakState.update KeccakState.finalize
    rw [habs]
    simp only [Keccak.new_keccak256, headerVec, create2Message, List.nil_append,
      List.cons_append, List.append_assoc]
  unfold cpuDerivedAddress
  rw [hcand, hk]
  have h12 : (32 : Nat) - 20 = 12 := by norm_num
  rw [h12]
  apply List.take_of_length_le
  rw [List.length_drop, hk]

/-- C1 witness: instantiation at a concrete config, random segment,
nonce 5 and a constant 32-byte hash stand-in. -/
theorem claim_C1_witness :
    (create2Message cfgMarkerOnly.factory_address cfgMarkerOnly.calling_address randomW
        (u64ToFixed6 5) cfgMarkerOnly.init_code_hash).length = 85 :=
  (claim_C1_derived_address hashW cfgMarkerOnly randomW 5 (fun _ => by simp [hashW])
    rfl rfl rfl rfl (by norm_num)).1

theorem checksumBodyK_length (h : List Nat → List Nat) (addr : List Char) :
    (checksumBodyK h addr).length = addr.length := by
  simp [checksumBodyK]

theorem checksumBodyK_mem (h : List Nat → List Nat) (addr : List Char) :
    ∀ ch ∈ checksumBodyK h addr, ∃ c ∈ addr, ch = Char.toUpper c ∨ ch = c := by
  intro ch hch
  simp only [checksumBodyK, List.mem_map, List.mem_range] at hch
  obtain ⟨i, hi, heq⟩ := hch
  have hgd : addr.getD i ' ' = addr.get ⟨i, hi⟩ := getD_eq_get addr i ' ' hi
  refine ⟨addr.get ⟨i, hi⟩, List.get_mem addr i hi, ?_⟩
  by_cases hcond : 7 < hexVal ((hexEncode (h (addr.map Char.toNat))).getD i '0')
  · left; rw [← heq, if_pos hcond, hgd]
  · right; rw [← heq, if_neg hcond, hgd]

/-- C7: every recorded line is
`0x<64-hex-salt> => 0x<40-hex-checksummed-address>`, the 32-byte salt
being exactly `caller(20) || random(6) || nonce(6)` (factory address
and control byte excluded). -/
theorem claim_C7_record_format :
    ∀ (h : List Nat → List Nat) (cfg : Config) (random : List Nat) (n : Nat) (out : List Char),
      (∀ m : List Nat, (h m).length = 32) →
      (∀ m : List Nat, ∀ b ∈ h m, b < 256) →
      cfg.factory_address.length = 20 → cfg.calling_address.length = 20 →
      (∀ b ∈ cfg.calling_address, b < 256) → random.length = 6 →
      (∀ b ∈ random, b < 256) →
      evalCandidate h cfg random n = some out →
      out = ('0' :: 'x' :: hexEncode (cfg.calling_address ++ random ++ u64ToFixed6 n)) ++
          (' ' :: '=' :: '>' :: ' ' :: '0' :: 'x' ::
            checksumBodyK h (hexEncode (cpuDerivedAddress h cfg random n))) ∧
      (hexEncode (cfg.calling_address ++ random ++ u64ToFixed6 n)).length = 64 ∧
      (∀ ch ∈ hexEncode (cfg.calling_address ++ random ++ u64ToFixed6 n),
        isHexDigit ch = true) ∧
      (checksumBodyK h (hexEncode (cpuDerivedAddress h cfg random n))).length = 40 ∧
      (∀ ch ∈ checksumBodyK h (hexEncode (cpuDerivedAddress h cfg random n)),
        isHexDigit ch = true) := by
  intro h cfg random n out hk hkb hf hc hcb hr hrb hev
  have hsalt : (hexEncode (headerVec cfg.factory_address cfg.calling_address random)).drop 42 ++
      hexEncode (u64ToFixed6 n) = hexEncode (cfg.calling_address ++ random ++ u64ToFixed6 n) := by
    have h1 : headerVec cfg.factory_address cfg.calling_address random
        = (CONTROL_CHARACTER :: cfg.factory_address) ++ (cfg.calling_address ++ random) := by
      simp [headerVec]
    have h2 : (hexEncode (CONTROL_CHARACTER :: cfg.factory_address)).length = 42 := by
      rw [length_hexEncode]; simp [hf]
    rw [h1, hexEncode_append, ← h2, List.drop_left, ← hexEncode_append, List.append_assoc]
  have hdig : (candidateDigest h cfg random n).length = 32 := hk _
  have hlen20 : (cpuDerivedAddress h cfg random n).length = 20 := by
    unfold cpuDerivedAddress
    rw [List.length_take, List.length_drop, hdig]
    norm_num
  have haddr : ∀ b ∈ cpuDerivedAddress h cfg random n, b < 256 := by
    intro b hb
    have hb1 : b ∈ (candidateDigest h cfg random n).drop 12 := List.mem_of_mem_take hb
    have hb2 : b ∈ candidateDigest h cfg random n := List.mem_of_mem_drop hb1
    exact hkb _ b hb2
  have hsaltbytes : ∀ b ∈ cfg.calling_address ++ random ++ u64ToFixed6 n, b < 256 := by
    intro b hb
    simp only [List.mem_append] at hb
    rcases hb with (hb | hb) | hb
    · exact hcb b hb
    · exact hrb b hb
    · exact u64ToFixed6_lt n b hb
  simp only [evalCandidate] at hev
  split at hev
  · split at hev
    · injection hev with hev
      subst hev
      refine ⟨?_, ?_, ?_, ?_, ?_⟩
      · simp only [cpuDerivedAddress]
        rw [← hsalt]
      · rw [length_hexEncode]
        simp [List.length_append, hc, hr, u64ToFixed6]
      · intro ch hch
        obtain ⟨v, hv, rfl⟩ := hexEncode_mem_shape _ hsaltbytes ch hch
        exact hexDigitChar_isHex v hv
      · rw [checksumBodyK_length, length_hexEncode, hlen20]
      · intro ch hch
        obtain ⟨c0, hc0, hcase⟩ := checksumBodyK_mem h _ ch hch
        obtain ⟨v, hv, rfl⟩ := hexEncode_mem_shape _ haddr c0 hc0
        rcases hcase with rfl | rfl
        · exact hexDigitChar_upper_isHex v hv
        · exact hexDigitChar_isHex v hv
    · simp at hev
  · simp at hev

/-- C7 witness: a confirmed record exists at a concrete instantiation
and its salt hex string has the claimed 64-character length. -/
theorem claim_C7_witness :
    (hexEncode (cfgMarkerOnly.calling_address ++ randomW ++ u64ToFixed6 0)).length = 64 :=
  (claim_C7_record_format hashW cfgMarkerOnly randomW 0
      ((evalCandidate hashW cfgMarkerOnly randomW 0).getD [])
      (fun _ => by simp [hashW])
      (fun m b hb => lt_trans (List.mem_range.mp hb) (by norm_num))
      rfl rfl (by decide) rfl (by decide) (by decide)).2.1

end Create2

namespace Create2

set_option maxHeartbeats 4000000 in
/-- C3: the checksum encoding of a 40-character lowercase hex string
hashes the UTF-8 bytes of that string (not the raw address bytes) and
uppercases exactly the characters whose corresponding digest nibble
exceeds 7; the EIP-55 reference vector is reproduced exactly. -/
theorem claim_C3_checksum_encoding :
    (∀ s : List Char, s.length = 40 → (∀ c ∈ s, c ∈ lowerHexChars) →
      (checksumBody s).length = 40 ∧
      (∀ j, j < 40 →
        (checksumBody s).getD j ' ' =
          if 7 < nibbleAt (keccak256 (s.map Char.toNat)) j
          then Char.toUpper (s.getD j ' ') else s.getD j ' ')) ∧
    checksumBody "5aaeb6053f3e94c9b9a09f33669435e7ef1beaed".toList =
      "5aAeb6053F3E94C9b9A09f33669435E7Ef1BeAed".toList := by
  constructor
  · intro s hlen _hlow
    constructor
    · simp [checksumBody, checksumBodyK, hlen]
    · intro j hj
      have hj' : j < s.length := by omega
      simp only [checksumBody, checksumBodyK]
      rw [getD_map_range _ s.length j ' ' hj']
      have hdl : (keccak256 (s.map Char.toNat)).length = 32 := keccak256_length _
      have hb : ∀ b ∈ keccak256 (s.map Char.toNat), b < 256 := keccak256_lt _
      rw [hexEncode_getD _ j (by rw [hdl]; omega)]
      rw [hexVal_hexDigitChar _ (nibbleAt_lt _ hb j)]
  · decide

/-- C3 witness: the reference input instantiates the universally
quantified part of the claim. -/
theorem claim_C3_witness :
    (checksumBody "5aaeb6053f3e94c9b9a09f33669435e7ef1beaed".toList).length = 40 :=
  (claim_C3_checksum_encoding.1 "5aaeb6053f3e94c9b9a09f33669435e7ef1beaed".toList
    (by decide) (by decide)).1

set_option maxHeartbeats 4000000 in
/-- C4 counterexample: the claim quantifies over every 40-hex-character
string, including upper-case ones.  For the all-uppercase input
`AAAA...A` (40 characters), the checksum encoding is the input itself,
but re-encoding its lowercase form mixes cases, so
`toChecksumAddress(lowercase(toChecksumAddress(x))) ≠
toChecksumAddress(x)`. -/
theorem claim_C4_counterexample :
    checksumBody ((checksumBody (List.replicate 40 'A')).map Char.toLower) ≠
      checksumBody (List.replicate 40 'A') := by decide

/-- C4 (amended): restricted to 40-character *lowercase* hex strings
(the declared domain of `toChecksumAddress` in the spec), re-encoding
the lowercased checksum output reproduces the checksum encoding. -/
theorem claim_C4_idempotent :
    ∀ s : List Char, s.length = 40 → (∀ c ∈ s, c ∈ lowerHexChars) →
      checksumBody ((checksumBody s).map Char.toLower) = checksumBody s := by
  intro s _hlen hlow
  simp only [checksumBody]
  rw [toLower_checksumBodyK keccak256 s hlow]

/-- C4 witness: the amended claim at the EIP-55 reference input. -/
theorem claim_C4_witness :
    checksumBody ((checksumBody "5aaeb6053f3e94c9b9a09f33669435e7ef1beaed".toList).map
        Char.toLower) =
      checksumBody "5aaeb6053f3e94c9b9a09f33669435e7ef1beaed".toList :=
  claim_C4_idempotent _ (by decide) (by decide)

end Create2

namespace Create2

theorem parse255 : parseU8 ['2', '5', '5'] = some 255 := rfl

theorem strip0x_of_ne (s : List Char) (h : s ≠ ['0', 'x']) :
    strip0x s = some (stripMarker s) := by
  unfold strip0x stripMarker dropHexMarker
  by_cases hp : List.isPrefixOf ['0', 'x'] s
  · rw [if_pos hp, if_pos hp]
    have hlen : 3 ≤ s.length := by
      rcases s with _ | ⟨a, _ | ⟨b, _ | ⟨d, tl⟩⟩⟩
      · simp [List.isPrefixOf] at hp
      · simp [List.isPrefixOf] at hp
      · simp [List.isPrefixOf] at hp
        obtain ⟨h1, h2⟩ := hp
        subst h1; subst h2
        exact absurd rfl h
      · simp
    rw [if_pos hlen]
  · rw [if_neg hp, if_neg hp]

/-- C8 counterexample: with a factory argument of exactly `0x` (which
certainly does not decode to 20 bytes), `Config::new` panics instead of
returning a validation error, refuting the claim as stated. -/
theorem claim_C8_counterexample :
    Config.new ["prog".toList, ['0', 'x'], '0' :: 'x' :: List.replicate 40 '0',
        '0' :: 'x' :: List.replicate 64 '0', ['0', 'x']] = ConfigResult.crash ∧
    isErr (Config.new ["prog".toList, ['0', 'x'], '0' :: 'x' :: List.replicate 40 '0',
        '0' :: 'x' :: List.replicate 64 '0', ['0', 'x']]) = false := by
  constructor
  · decide
  · decide

/-- C8 (amended): provided none of the factory, caller, or
init-code-hash arguments is the exact two-character string `0x` (for
which `Config::new` panics, see C9), `Config::new` returns a validation
error whenever one of those arguments does not decode to exactly
20/20/32 bytes or the target prefix is not `0x` followed by hex digits;
when all checks pass it returns a `Config` carrying exactly the decoded
byte vectors, the default GPU device 255, and the literal target
string. -/
theorem claim_C8_validation :
    ∀ p f c i t : List Char,
      f ≠ ['0', 'x'] → c ≠ ['0', 'x'] → i ≠ ['0', 'x'] →
      (¬(decodesTo 20 f = true ∧ decodesTo 20 c = true ∧ decodesTo 32 i = true ∧
          goodTarget t = true) →
        isErr (Config.new [p, f, c, i, t]) = true) ∧
      ((decodesTo 20 f = true ∧ decodesTo 20 c = true ∧ decodesTo 32 i = true ∧
          goodTarget t = true) →
        Config.new [p, f, c, i, t] =
          ConfigResult.ok ⟨(fromHex (stripMarker f)).getD [], (fromHex (stripMarker c)).getD [],
            (fromHex (stripMarker i)).getD [], 255, t⟩) := by
  intro p f c i t hf hc hi
  have hb : Config.new [p, f, c, i, t] = configBody f c i t ['2', '5', '5'] := rfl
  have hsf := strip0x_of_ne f hf
  have hsc := strip0x_of_ne c hc
  have hsi := strip0x_of_ne i hi
  rw [hb]
  unfold configBody
  rw [hsf, hsc, hsi]
  constructor
  · intro hbad
    by_cases ht0 : List.isPrefixOf ['0', 'x'] t = true
    · cases hfx : fromHex (stripMarker f) with
      | none => simp [ht0, hfx, isErr]
      | some fv =>
        cases hcx : fromHex (stripMarker c) with
        | none => simp [ht0, hfx, hcx, isErr]
        | some cv =>
          cases hix : fromHex (stripMarker i) with
          | none => simp [ht0, hfx, hcx, hix, isErr]
          | some iv =>
            by_cases hfl : fv.length = 20
            · by_cases hcl : cv.length = 20
              · by_cases hil : iv.length = 32
                · by_cases hth : (t.drop 2).any (fun ch => !(isHexDigit ch)) = true
                  · simp [ht0, hfx, hcx, hix, hfl, hcl, hil, hth, parse255, isErr]
                  · exfalso
                    apply hbad
                    refine ⟨?_, ?_, ?_, ?_⟩
                    · simp [decodesTo, hfx, hfl]
                    · simp [decodesTo, hcx, hcl]
                    · simp [decodesTo, hix, hil]
                    · simp only [goodTarget, ht0, Bool.true_and]
                      rw [List.all_eq_true]
                      intro ch hch
                      by_contra hno
                      apply hth
                      rw [List.any_eq_true]
                      exact ⟨ch, hch, by simp [hno]⟩
                · simp [ht0, hfx, hcx, hix, hfl, hcl, hil, isErr]
              · simp [ht0, hfx, hcx, hix, hfl, hcl, isErr]
            · simp [ht0, hfx, hcx, hix, hfl, isErr]
    · simp [ht0, isErr]
  · intro hgood
    obtain ⟨h1, h2, h3, h4⟩ := hgood
    have hf1 : ∃ fv, fromHex (stripMarker f) = some fv ∧ fv.length = 20 := by
      unfold decodesTo at h1
      cases hx : fromHex (stripMarker f) with
      | none => rw [hx] at h1; simp at h1
      | some fv => rw [hx] at h1; simp at h1; exact ⟨fv, rfl, h1⟩
    have hc1 : ∃ cv, fromHex (stripMarker c) = some cv ∧ cv.length = 20 := by
      unfold decodesTo at h2
      cases hx : fromHex (stripMarker c) with
      | none => rw [hx] at h2; simp at h2
      | some cv => rw [hx] at h2; simp at h2; exact ⟨cv, rfl, h2⟩
    have hi1 : ∃ iv, fromHex (stripMarker i) = some iv ∧ iv.length = 32 := by
      unfold decodesTo at h3
      cases hx : fromHex (stripMarker i) with
      | none => rw [hx] at h3; simp at h3
      | some iv => rw [hx] at h3; simp at h3; exact ⟨iv, rfl, h3⟩
    obtain ⟨fv, hfx, hfl⟩ := hf1
    obtain ⟨cv, hcx, hcl⟩ := hc1
    obtain ⟨iv, hix, hil⟩ := hi1
    have ht0 : List.isPrefixOf ['0', 'x'] t = true := by
      unfold goodTarget at h4
      rw [Bool.and_eq_true] at h4
      exact h4.1
    have hall : ∀ ch ∈ t.drop 2, isHexDigit ch = true := by
      unfold goodTarget at h4
      rw [Bool.and_eq_true] at h4
      have := h4.2
      rwa [List.all_eq_true] at this
    have hth : ((t.drop 2).any (fun ch => !(isHexDigit ch))) = false := by
      rw [Bool.eq_false_iff]
      intro hany
      rw [List.any_eq_true] at hany
      obtain ⟨ch, hch, hbadc⟩ := hany
      simp [hall ch hch] at hbadc
    have hfix20 : to_fixed_20 fv = fv := by
      unfold to_fixed_20
      apply List.take_of_length_le
      omega
    have hcix20 : to_fixed_20 cv = cv := by
      unfold to_fixed_20
      apply List.take_of_length_le
      omega
    have hiix32 : to_fixed_32 iv = iv := by
      unfold to_fixed_32
      apply List.take_of_length_le
      omega
    simp [ht0, hfx, hcx, hix, hfl, hcl, hil, hth, parse255, hfix20, hcix20, hiix32]

/-- C8 witness: a non-decodable factory argument yields a validation
error under the amended claim. -/
theorem claim_C8_witness :
    isErr (Config.new ["p".toList, "zz".toList, "00".toList, "00".toList,
      "0x".toList]) = true :=
  (claim_C8_validation "p".toList "zz".toList "00".toList "00".toList "0x".toList
    (by decide) (by decide) (by decide)).1 (by decide)

end Create2
